import Mathlib

/-!
Verification of the iges2vtk IGES decoder against its specification.

Shallow embedding conventions:
* Python `str` values are modelled as `List Char`.
* Python numeric parameter values (floats) are modelled as `ℚ`; the conic
  reconstruction math (which uses `sqrt`) is modelled over `ℝ`.
* A Python function that can raise an uncaught exception is modelled as an
  `Option`-valued function, `none` standing for a raised exception.
* Mutable objects (registries, reader buffers) are passed and returned
  explicitly.
-/

namespace Iges2Vtk
/-! ## Python primitives -/

/-- Python `str.strip()` restricted to spaces (the only whitespace that occurs
in the fixed-column IGES records). -/
def pyStrip (s : List Char) : List Char :=
  ((s.dropWhile (· = ' ')).reverse.dropWhile (· = ' ')).reverse

/-- Decimal value of a list of digit characters, most significant first
(the positional reading that Python `int` performs on a digit string). -/
def digitsVal (s : List Char) : Nat :=
  s.foldl (fun a c => a * 10 + (c.toNat - 48)) 0

/-- Parse a non-empty all-digit string; `none` models `ValueError`. -/
def parseDigits (s : List Char) : Option Nat :=
  if s ≠ [] ∧ s.all Char.isDigit then some (digitsVal s) else none

/-- Python `int(s)`: strip surrounding whitespace, allow a leading minus sign,
then require decimal digits.  `none` models `ValueError`.  (A leading `+` is
also legal in Python but never occurs in IGES records.) -/
def pyInt (s : List Char) : Option ℤ :=
  let t := pyStrip s
  if t.head? = some '-' then (parseDigits (t.drop 1)).map (fun n => -(n : ℤ))
  else (parseDigits t).map (fun n => (n : ℤ))

/-- Python `str(n)` for a natural number: its decimal representation. -/
def natToDec (n : Nat) : List Char :=
  if n = 0 then ['0'] else (Nat.digits 10 n).reverse.map Nat.digitChar

/-! ## read_hollerith (section_reader.py)

```python
def read_hollerith(string: str) -> str:
    i = 0
    while string[i] != "H":
        i += 1
    length = int(string[:i])
    return string[i+1:i+1+length]
```
The scan for `"H"` walks off the end of the string when no `H` is present
(`IndexError`, modelled by `none`); `int` on the prefix can raise
`ValueError` (also `none`).  The final slice silently truncates when the
declared length exceeds the remaining characters, exactly as a Python slice
does; a negative declared length yields the empty slice. -/

def read_hollerith (string : List Char) : Option (List Char) :=
  let pre := string.takeWhile (· ≠ 'H')
  if pre.length = string.length then none
  else (pyInt pre).map (fun len => (string.drop (pre.length + 1)).take len.toNat)

/-! ## Entity.parse_status_number (entity.py)

```python
numbers = x.split(" ")
numbers = [n.zfill(2) for n in numbers]
return int("".join(numbers))
```
-/

/-- Python `str.split(" ")`: split on every single space, keeping empty
pieces (so `"".split(" ") == [""]`). -/
def splitSpace : List Char → List (List Char)
  | [] => [[]]
  | c :: rest =>
    if c = ' ' then [] :: splitSpace rest
    else
      match splitSpace rest with
      | g :: gs => (c :: g) :: gs
      | [] => [[c]]

/-- Python `str.zfill(width)`: left-pad with `'0'` up to `width`, keeping a
leading sign character in front of the padding. -/
def zfill (s : List Char) (width : Nat) : List Char :=
  if width ≤ s.length then s
  else
    match s with
    | [] => List.replicate width '0'
    | c :: rest =>
      if c = '-' ∨ c = '+' then c :: (List.replicate (width - s.length) '0' ++ rest)
      else List.replicate (width - s.length) '0' ++ (c :: rest)

/-- `Entity.parse_status_number`; `none` models the `ValueError` that
`int` raises on garbage input. -/
def parseStatusNumber (x : List Char) : Option ℤ :=
  pyInt (((splitSpace x).map (fun p => zfill p 2)).flatten)

/-- The status-number string the spec round-trips:
`"%02d %02d %02d %02d" % (w, x, y, z)`. -/
def fmtStatus (w x y z : Nat) : List Char :=
  zfill (natToDec w) 2 ++ ' ' :: (zfill (natToDec x) 2 ++ ' ' ::
    (zfill (natToDec y) 2 ++ ' ' :: zfill (natToDec z) 2))

/-! ## Document-level values

`PreprocessorData = Union[str, int, float]` and `Parameter = Union[str, float]`
are both modelled by one sum of strings and exact numbers. -/

inductive PyVal where
  | str (s : List Char)
  | num (q : ℚ)
deriving DecidableEq

/-- Python truthiness for the two value shapes that occur. -/
def pyTruthy : PyVal → Bool
  | .str s => !s.isEmpty
  | .num q => q ≠ 0

/-! ## GlobalSectionReader.parse_string (global_section_reader.py)

```python
def parse_string(self, i, length, content) -> int:
    string_length = int(content[i: i+length])
    data_end = i + length + string_length + 1
    if data_end > len(content):
        self.left_over = content[i:data_end]
        i = len(content)
    else:
        i += length + 1
        self.unit_buffer.append(str(content[i:data_end]))
        i = data_end
    return i
```
The reader state is passed explicitly; `none` models the `ValueError` that
`int` raises on a non-numeric length prefix.  A declared length running past
the buffered content takes the first branch: the partial token is kept as
`left_over` and nothing is raised.  (Python's negative-index slice wrap-around
is not modelled; every index arising in the IGES records is nonnegative.) -/

structure GlobalReaderState where
  unit_buffer : List PyVal
  left_over : List Char
deriving DecidableEq

def parse_string (i ln : Nat) (content : List Char) (st : GlobalReaderState) :
    Option (Nat × GlobalReaderState) :=
  match pyInt ((content.drop i).take ln) with
  | none => none
  | some string_length =>
    let data_end : ℤ := (i : ℤ) + ln + string_length + 1
    if (content.length : ℤ) < data_end then
      some (content.length,
        { st with left_over := (content.drop i).take (data_end - i).toNat })
    else
      let i2 := i + ln + 1
      some (data_end.toNat,
        { st with unit_buffer := st.unit_buffer
            ++ [PyVal.str ((content.drop i2).take (data_end.toNat - i2))] })

/-! ## Iges.delimiter / Iges.ending (iges.py)

```python
@property
def delimiter(self):
    if (delimiter := self.global_data_list[0:1][0]):
        return delimiter
    else:
        return self.DEFAULT_DELIMITER
```
(`ending` is the same with `[1:2][0]` and `DEFAULT_ENDING`.)  Indexing the
sliced list with `[0]` raises `IndexError` when the slice is empty, which the
property does not catch; `none` models that uncaught exception. -/

def DEFAULT_DELIMITER : PyVal := .str [',']

def DEFAULT_ENDING : PyVal := .str [';']

def delimiter (global_data_list : List PyVal) : Option PyVal :=
  match (global_data_list.take 1).head? with
  | none => none
  | some v => some (if pyTruthy v then v else DEFAULT_DELIMITER)

def ending (global_data_list : List PyVal) : Option PyVal :=
  match ((global_data_list.drop 1).take 1).head? with
  | none => none
  | some v => some (if pyTruthy v then v else DEFAULT_ENDING)

/-! ## IgesReader.parse_line (iges_reader.py)

```python
line = file.readline()
content = line[:72]
section = line[72]
sequence_number = int(line[73:-1].replace(' ', '0'))
return IgesLine(content, section, sequence_number)
```
`line` is the raw physical line including its trailing newline.  `line[72]`
raises `IndexError` on a short line; `int` can raise `ValueError`; both are
modelled by `none`.  No validation of the section character is performed.
The source dataclass field `section` is a Lean keyword, hence `section_code`
here. -/

structure IgesLine where
  content : List Char
  section_code : Char
  sequence : ℤ
deriving DecidableEq

def parse_line (line : List Char) : Option IgesLine :=
  let content := line.take 72
  match line.get? 72 with
  | none => none
  | some sec =>
    match pyInt (((line.drop 73).dropLast).map
        (fun c => if c = ' ' then '0' else c)) with
    | none => none
    | some n => some ⟨content, sec, n⟩

/-! ### C8: tokenizer failure behaviour -/

/-- An 80-column physical line (plus newline) whose column-73 section code is
`'X'`, which is not one of `S`,`G`,`D`,`P`,`T`. -/
def badSectionLine : List Char :=
  List.replicate 72 'a' ++ 'X' :: (String.toList "0000001" ++ ['\n'])

/-! ## DataEntrySectionReader.process_unit (data_entry_section_reader.py)

```python
for i, entry in enumerate(t):
    if i in [9, 14, 15]:
        continue
    elif i == 8:
        param = Entity.parse_status_number(entry)
    elif i == 16:
        param = entry
    else:
        filled = entry.strip()
        param = int(filled) if filled else 0
    entity_param.append(param)
try:
    etype = etype2class[entity_param[0]]
    e = etype(*entity_param)
    self.iges.add_entity(e, sequence - 1)
except KeyError:
    pass
```
Only `KeyError` is caught; a `ValueError` from `int`, the `IndexError` from
`entity_param[0]` on an empty buffer, or a `TypeError` from the dataclass
constructor propagate (`none`).  The dataclass would also accept 16 or 17
positional arguments (filling the defaulted fields); an 18-field directory
unit always produces exactly 15 parameters, which is the case modelled. -/

inductive DirParam where
  | int (n : ℤ)
  | str (s : List Char)
deriving DecidableEq

/-- The 15 directory-entry fields shared by every entity dataclass
(`entity.py`); the Python field `structure` is a Lean keyword, hence
`structure_` here.  The concrete subclass chosen by the type number carries
no extra constructor fields, so one record stands for all of them. -/
structure Entity where
  type_number : ℤ
  pd_pointer : ℤ
  structure_ : ℤ
  line_font_pattern : ℤ
  level : ℤ
  view : ℤ
  transformation_pointer : ℤ
  label_display_associativity : ℤ
  status_number : ℤ
  line_weight : ℤ
  color : ℤ
  parameter_line_count : ℤ
  form : ℤ
  entity_label : List Char
  subscript : ℤ
  parameters : List PyVal
deriving DecidableEq

/-- One loop iteration of `process_unit`: decode the `i`-th 8-column field. -/
def parseDirEntry (i : Nat) (entry : List Char) : Option DirParam :=
  if i = 8 then (parseStatusNumber entry).map .int
  else if i = 16 then some (.str entry)
  else
    let filled := pyStrip entry
    if filled.isEmpty then some (.int 0) else (pyInt filled).map .int

/-- The `entity_param` list accumulated by the loop, skipping slots 9, 14
and 15. -/
def buildEntityParams (buffer : List (List Char)) : Option (List DirParam) :=
  buffer.enum.foldl
    (fun acc p =>
      acc.bind (fun ps =>
        if p.1 = 9 ∨ p.1 = 14 ∨ p.1 = 15 then some ps
        else (parseDirEntry p.1 p.2).map (fun q => ps ++ [q])))
    (some [])

/-- `etype(*entity_param)`: the dataclass constructor applied positionally;
requires the exact 15-field shape (otherwise `TypeError`, uncaught). -/
def entityFromParams : List DirParam → Option Entity
  | [.int tn, .int pd, .int st, .int lf, .int lv, .int vw, .int tp, .int ld,
     .int sn, .int lw, .int col, .int plc, .int fm, .str lbl, .int sub] =>
    some ⟨tn, pd, st, lf, lv, vw, tp, ld, sn, lw, col, plc, fm, lbl, sub, []⟩
  | _ => none

/-- The keys of `etype2class`.  (Types 142 and 144 are listed in the mapping
even though their classes are missing from `entity.py`; neither occurs in any
claim.) -/
def supportedTypes : List ℤ :=
  [100, 102, 104, 106, 110, 116, 120, 124, 126, 128, 142, 144, 308, 502, 504,
   508, 510]

/-- The entity registry `Iges.entity_dict`; a fresh insertion shadows an
older binding, as a Python dict assignment does. -/
def Registry := List (ℤ × Entity)

/-- `Iges.add_entity(entity, sequence)`: insert unless the entity is `None`. -/
def addEntity (reg : Registry) (entity : Option Entity) (sequence : ℤ) :
    Registry :=
  match entity with
  | none => reg
  | some e => (sequence, e) :: reg

/-- `Iges.get_entity`: dict lookup with `KeyError` caught and turned into
`None`. -/
def getEntity (reg : Registry) (pointer : ℤ) : Option Entity :=
  List.lookup pointer reg

def deProcessUnit (buffer : List (List Char)) (sequence : ℤ) (reg : Registry) :
    Option Registry :=
  match buildEntityParams buffer with
  | none => none
  | some [] => none
  | some (DirParam.str _ :: _) => some reg
  | some (DirParam.int t :: rest) =>
    if t ∈ supportedTypes then
      match entityFromParams (DirParam.int t :: rest) with
      | none => none
      | some e => some (addEntity reg (some e) (sequence - 1))
    else some reg

/-! ### Concrete directory-entry units -/

/-- An 18-field directory unit for a Line (type 110). -/
def lineTypeBuf : List (List Char) :=
  ["     110", "       1", "       0", "       0", "       0", "       0",
   "       0", "       0", "00000000", "       0", "       0", "       0",
   "       1", "       0", "        ", "        ", "    LINE", "       0"
  ].map String.toList

/-- An 18-field directory unit with the unsupported type number 999. -/
def unsupportedTypeBuf : List (List Char) :=
  ["     999", "       1", "       0", "       0", "       0", "       0",
   "       0", "       0", "00000000", "       0", "       0", "       0",
   "       1", "       0", "        ", "        ", "        ", "       0"
  ].map String.toList

/-- The 14 parameters following the type number in `unsupportedTypeBuf`. -/
def unsupportedTail : List DirParam :=
  [.int 1, .int 0, .int 0, .int 0, .int 0, .int 0, .int 0, .int 0, .int 0,
   .int 0, .int 1, .int 0, .str (String.toList "        "), .int 0]

/-- A pre-existing registry entry used to watch for interference. -/
def priorEntity : Entity :=
  ⟨110, 1, 0, 0, 0, 0, 0, 0, 0, 0, 0, 1, 0, String.toList "    LINE", 0, []⟩

/-! ## Fixed-arity entity parameter population (entity.py)

```python
class Point:  self.pos = np.array(args[:3])
class Line:   self.start = args[:3]; self.end = args[3:6]
class ConicArc:        self.a, ..., self.z2 = args[:12]
class Transformation:  r11, ..., t3 = (args[:12]); self.r = ...; self.t = ...
```
Tuple unpacking of `args[:12]` succeeds exactly when at least 12 arguments
are present (the slice then has exactly 12 elements); surplus arguments are
never inspected.  `Option` models the `ValueError` a short unpack raises.
`end` is a Lean keyword, hence `end_`. -/

def pointAddParameters (args : List ℚ) : List ℚ := args.take 3

structure LineFields where
  start : List ℚ
  end_ : List ℚ
deriving DecidableEq

def lineAddParameters (args : List ℚ) : LineFields :=
  ⟨args.take 3, (args.drop 3).take 3⟩

structure ConicFields where
  a : ℚ
  b : ℚ
  c : ℚ
  d : ℚ
  e : ℚ
  f : ℚ
  x1 : ℚ
  y1 : ℚ
  z1 : ℚ
  x2 : ℚ
  y2 : ℚ
  z2 : ℚ
deriving DecidableEq

def conicAddParameters : List ℚ → Option ConicFields
  | a :: b :: c :: d :: e :: f :: x1 :: y1 :: z1 :: x2 :: y2 :: z2 :: _ =>
    some ⟨a, b, c, d, e, f, x1, y1, z1, x2, y2, z2⟩
  | _ => none

/-- `self.r` is the 3×3 rotation; `self.t` is `np.array([[t1,t2,t3]])`,
a 1×3 row exactly as in the source. -/
structure TransformationFields where
  r : List (List ℚ)
  t : List (List ℚ)
deriving DecidableEq

def transformationAddParameters : List ℚ → Option TransformationFields
  | r11 :: r12 :: r13 :: t1 :: r21 :: r22 :: r23 :: t2 ::
      r31 :: r32 :: r33 :: t3 :: _ =>
    some ⟨[[r11, r12, r13], [r21, r22, r23], [r31, r32, r33]], [[t1, t2, t3]]⟩
  | _ => none

/-! ## RationalBSplineSurface.add_parameters (entity.py)

```python
start_idx = 9
self.k1, self.k2, self.m1, self.m2, *flags = map(int, args[:start_idx])
knot2_start = start_idx + self.k2 + self.m1 + 2      # note: k2, not k1
weight_start = knot2_start + self.k1 + self.m2 + 2   # note: k1, not k2
self.knot1 = args[start_idx: knot2_start]
self.knot2 = args[knot2_start: weight_start]
weight_count = (self.k2 + 1) * (self.k1 + 1)
...
assert len(self.knot1) == (2 + self.k2 + self.m1)
assert len(self.knot2) == (2 + self.k1 + self.m2)
```
The slice bounds (and the matching asserts) pair `k2` with `m1` and `k1`
with `m2`; the embedding mirrors that pairing verbatim.  `Option` models
every uncaught failure (short unpack, ragged `np.array`/`reshape`, failed
`assert`).  Python's negative-index slice wrap-around is not modelled; all
indices arising in the settled inputs are nonnegative. -/

/-- Python `int()` applied to an exact numeric value: truncate toward zero. -/
def pyTrunc (q : ℚ) : ℤ := if 0 ≤ q then q.floor else q.ceil

/-- Python slice `l[a:b]` for nonnegative bounds. -/
def sliceZ (l : List ℚ) (a b : ℤ) : List ℚ :=
  (l.drop a.toNat).take (b - a).toNat

/-- The `while i < etc_start: append(args[i:i+3]); i += 3` loop. -/
def rbssControlGroups (args : List ℚ) (control_start etc_start : ℤ) :
    List (List ℚ) :=
  (List.range (((etc_start - control_start).toNat + 2) / 3)).map
    (fun k => sliceZ args (control_start + 3 * k) (control_start + 3 * k + 3))

/-- `np.reshape` row grouping: split the `(N,3)` group list into rows of
`n` groups. -/
def listChunks (n : Nat) (l : List (List ℚ)) : List (List (List ℚ)) :=
  (List.range ((l.length + n - 1) / n)).map (fun r => (l.drop (r * n)).take n)

structure RationalBSplineSurface where
  k1 : ℤ
  k2 : ℤ
  m1 : ℤ
  m2 : ℤ
  flag1 : ℤ
  flag2 : ℤ
  flag3 : ℤ
  flag4 : ℤ
  flag5 : ℤ
  knot1 : List ℚ
  knot2 : List ℚ
  weights : List ℚ
  control_points : List (List (List ℚ))
  U0 : ℚ
  U1 : ℚ
  V0 : ℚ
  V1 : ℚ
deriving DecidableEq

def rbssAddParameters (args : List ℚ) : Option RationalBSplineSurface :=
  match args with
  | a0 :: a1 :: a2 :: a3 :: a4 :: a5 :: a6 :: a7 :: a8 :: _ =>
    let k1 := pyTrunc a0
    let k2 := pyTrunc a1
    let m1 := pyTrunc a2
    let m2 := pyTrunc a3
    let start_idx : ℤ := 9
    let knot2_start := start_idx + k2 + m1 + 2
    let weight_start := knot2_start + k1 + m2 + 2
    let knot1 := sliceZ args start_idx knot2_start
    let knot2 := sliceZ args knot2_start weight_start
    let weight_count := (k2 + 1) * (k1 + 1)
    let control_start := weight_start + weight_count
    let weights := sliceZ args weight_start control_start
    let etc_start := control_start + 3 * weight_count
    let groups := rbssControlGroups args control_start etc_start
    if (groups.all fun g => g.length = 3)
        ∧ (groups.length : ℤ) = weight_count then
      match args.drop etc_start.toNat with
      | [u0, u1, v0, v1] =>
        if ((knot1.length : ℤ) = 2 + k2 + m1)
            ∧ ((knot2.length : ℤ) = 2 + k1 + m2)
            ∧ ((weights.length : ℤ) = weight_count)
            ∧ ((groups.length : ℤ) * 3 = weight_count * 3) then
          some ⟨k1, k2, m1, m2, pyTrunc a4, pyTrunc a5, pyTrunc a6,
            pyTrunc a7, pyTrunc a8, knot1, knot2, weights,
            listChunks (k1 + 1).toNat groups, u0, u1, v0, v1⟩
        else none
      | _ => none
    else none
  | _ => none

/-! ### C5: knot-vector lengths are swapped -/

/-- A parameter list laid out per the claim's grammar for
`K1 = 1, K2 = 0, M1 = 1, M2 = 1`: 9 leading integers, a first knot vector of
`K1+M1+2 = 4` values, a second of `K2+M2+2 = 3` values, `(K1+1)(K2+1) = 2`
weights, 6 control-point coordinates and 4 parametric-range values. -/
def c5Args : List ℚ :=
  [1, 0, 1, 1, 0, 0, 0, 0, 0,
   0, 0, 1, 1,
   0, 1, 1,
   1, 1,
   0, 0, 0, 1, 0, 0,
   0, 1, 0, 1]

/-! ## ConicArc.get_major_raidus (entity.py; the typo is the source's)

```python
sol = np.array([[a, b/2], [b/2, c]])
conic_matrix = np.array([[a, b/2, d/2], [b/2, c, e/2], [d/2, e/2, f]])
eig = np.linalg.eigvals(sol)
l1, l2 = eig
S = np.linalg.det(conic_matrix)
canonical_a = -S/(l1**2 * l2)
return canonical_a
```
There is no degeneracy check and no `raise` anywhere in the function (nor
does a `DegenerateConicError` class exist in the code); `numpy` float
division by zero emits a warning and yields `inf`/`nan` without raising.
The embedding works over `ℝ`: the eigenvalues of the symmetric 2×2 matrix
are the two roots of its characteristic polynomial, written with the
explicit quadratic formula (`np.linalg.eigvals` does not specify an order;
`l1` is fixed as the `+√` root), the determinant is the exact 3×3 cofactor
expansion (proved equal to `Matrix.det` below), and Lean's `x / 0 = 0`
convention stands in for the non-raising float division. -/

noncomputable def eigvalsDisc (a b c : ℝ) : ℝ := (a - c) ^ 2 + b ^ 2

noncomputable def l1 (a b c : ℝ) : ℝ :=
  ((a + c) + Real.sqrt (eigvalsDisc a b c)) / 2

noncomputable def l2 (a b c : ℝ) : ℝ :=
  ((a + c) - Real.sqrt (eigvalsDisc a b c)) / 2

noncomputable def conicDet (a b c d e f : ℝ) : ℝ :=
  a * (c * f - (e / 2) * (e / 2)) - (b / 2) * ((b / 2) * f - (e / 2) * (d / 2))
    + (d / 2) * ((b / 2) * (e / 2) - c * (d / 2))

noncomputable def get_major_raidus (a b c d e f : ℝ) : ℝ :=
  -(conicDet a b c d e f) / ((l1 a b c) ^ 2 * l2 a b c)

/-! ### Digit-string lemmas -/

theorem digitChar_toNat {d : Nat} (hd : d < 10) :
    (Nat.digitChar d).toNat = 48 + d := by
  interval_cases d <;> decide

theorem digitChar_isDigit {d : Nat} (hd : d < 10) :
    (Nat.digitChar d).isDigit = true := by
  interval_cases d <;> decide

theorem digitChar_ne_H {d : Nat} (hd : d < 10) : Nat.digitChar d ≠ 'H' := by
  interval_cases d <;> decide

theorem digitChar_ne_space {d : Nat} (hd : d < 10) : Nat.digitChar d ≠ ' ' := by
  interval_cases d <;> decide

theorem digitChar_ne_minus {d : Nat} (hd : d < 10) : Nat.digitChar d ≠ '-' := by
  interval_cases d <;> decide

/-- Generalized-accumulator form of `digitsVal` on a reversed digit list. -/
theorem digitsVal_reverse_map (l : List Nat) (a : Nat) (hl : ∀ d ∈ l, d < 10) :
    (l.reverse.map Nat.digitChar).foldl (fun a c => a * 10 + (c.toNat - 48)) a
      = a * 10 ^ l.length + Nat.ofDigits 10 l := by
  induction l generalizing a with
  | nil => simp
  | cons d t ih =>
    have hd : d < 10 := hl d (List.mem_cons_self d t)
    have ht : ∀ x ∈ t, x < 10 := fun x hx => hl x (List.mem_cons_of_mem d hx)
    have : ((d :: t).reverse.map Nat.digitChar)
        = (t.reverse.map Nat.digitChar) ++ [Nat.digitChar d] := by
      simp
    rw [this, List.foldl_append, ih a ht]
    simp only [List.foldl_cons, List.foldl_nil, digitChar_toNat hd,
      Nat.ofDigits_cons, List.length_cons]
    have h48 : 48 + d - 48 = d := by omega
    rw [h48]
    ring

theorem digitsVal_natToDec (n : Nat) : digitsVal (natToDec n) = n := by
  unfold natToDec digitsVal
  by_cases h : n = 0
  · subst h; decide
  · rw [if_neg h]
    have hlt : ∀ d ∈ Nat.digits 10 n, d < 10 := fun d hd =>
      Nat.digits_lt_base (by norm_num) hd
    have := digitsVal_reverse_map (Nat.digits 10 n) 0 hlt
    simpa [Nat.ofDigits_digits] using this

theorem natToDec_ne_nil (n : Nat) : natToDec n ≠ [] := by
  unfold natToDec
  by_cases h : n = 0
  · subst h; decide
  · rw [if_neg h]
    intro hcontra
    have : Nat.digits 10 n ≠ [] := Nat.digits_ne_nil_iff_ne_zero.2 h
    simp at hcontra
    exact this hcontra

theorem natToDec_all_digits (n : Nat) :
    (natToDec n).all Char.isDigit = true := by
  unfold natToDec
  by_cases h : n = 0
  · subst h; decide
  · rw [if_neg h]
    simp only [List.all_eq_true, List.mem_map, List.mem_reverse]
    rintro c ⟨d, hd, rfl⟩
    exact digitChar_isDigit (Nat.digits_lt_base (by norm_num) hd)

theorem natToDec_mem_digit (n : Nat) {c : Char} (hc : c ∈ natToDec n) :
    ∃ d, d < 10 ∧ c = Nat.digitChar d := by
  unfold natToDec at hc
  by_cases h : n = 0
  · subst h; simp at hc; exact ⟨0, by norm_num, hc⟩
  · rw [if_neg h] at hc
    simp only [List.mem_map, List.mem_reverse] at hc
    obtain ⟨d, hd, rfl⟩ := hc
    exact ⟨d, Nat.digits_lt_base (by norm_num) hd, rfl⟩

theorem parseDigits_natToDec (n : Nat) : parseDigits (natToDec n) = some n := by
  unfold parseDigits
  rw [if_pos ⟨natToDec_ne_nil n, natToDec_all_digits n⟩, digitsVal_natToDec]

theorem dropWhile_of_forall_false {p : Char → Bool} (l : List Char)
    (h : ∀ c ∈ l, p c = false) : l.dropWhile p = l := by
  cases l with
  | nil => rfl
  | cons c t => simp [List.dropWhile_cons, h c (List.mem_cons_self c t)]

theorem pyStrip_of_no_space (l : List Char) (h : ∀ c ∈ l, c ≠ ' ') :
    pyStrip l = l := by
  unfold pyStrip
  rw [dropWhile_of_forall_false l (fun c hc => by simpa using h c hc),
    dropWhile_of_forall_false l.reverse
      (fun c hc => by simpa using h c (List.mem_reverse.1 hc)),
    List.reverse_reverse]

theorem pyStrip_natToDec (n : Nat) : pyStrip (natToDec n) = natToDec n := by
  apply pyStrip_of_no_space
  intro c hc
  obtain ⟨d, hd, rfl⟩ := natToDec_mem_digit n hc
  exact digitChar_ne_space hd

theorem isDigit_ne_space {c : Char} (h : c.isDigit = true) : c ≠ ' ' := by
  intro heq; rw [heq] at h; exact absurd h (by decide)

theorem isDigit_ne_minus {c : Char} (h : c.isDigit = true) : c ≠ '-' := by
  intro heq; rw [heq] at h; exact absurd h (by decide)

theorem isDigit_ne_plus {c : Char} (h : c.isDigit = true) : c ≠ '+' := by
  intro heq; rw [heq] at h; exact absurd h (by decide)

theorem head_ne_minus_of_digits (s : List Char)
    (hd : ∀ c ∈ s, c.isDigit = true) : ¬ (s.head? = some '-') := by
  cases s with
  | nil => simp
  | cons c t =>
    simp only [List.head?_cons, Option.some.injEq]
    intro hc
    exact isDigit_ne_minus (hd c (by rw [hc]; exact List.mem_cons_self _ _)) hc

theorem pyInt_natToDec (n : Nat) : pyInt (natToDec n) = some (n : ℤ) := by
  unfold pyInt
  rw [pyStrip_natToDec,
    if_neg (head_ne_minus_of_digits _ (fun c hc => by
      obtain ⟨d, hdlt, rfl⟩ := natToDec_mem_digit n hc
      exact digitChar_isDigit hdlt)),
    parseDigits_natToDec]
  rfl

/-! ### C3: Hollerith round trip -/

theorem takeWhile_append_stop {p : Char → Bool} (A : List Char) (x : Char)
    (B : List Char) (hA : ∀ a ∈ A, p a = true) (hx : p x = false) :
    (A ++ x :: B).takeWhile p = A := by
  induction A with
  | nil => simp [List.takeWhile_cons, hx]
  | cons a t ih =>
    have ha : p a = true := hA a (List.mem_cons_self a t)
    simp only [List.cons_append, List.takeWhile_cons, ha, if_true]
    rw [ih (fun b hb => hA b (List.mem_cons_of_mem a hb))]

/-- **C3** For every string `s` of length `n`, `read_hollerith` applied to
the concatenation of the decimal of `n`, the letter `H`, and `s` returns
exactly `s`. -/
theorem hollerith_round_trip (s : List Char) :
    read_hollerith (natToDec s.length ++ 'H' :: s) = some s := by
  unfold read_hollerith
  have hpre : ((natToDec s.length ++ 'H' :: s).takeWhile (· ≠ 'H'))
      = natToDec s.length := by
    apply takeWhile_append_stop
    · intro a ha
      obtain ⟨d, hd, rfl⟩ := natToDec_mem_digit _ ha
      simpa using digitChar_ne_H hd
    · simp
  rw [hpre]
  have hlen : (natToDec s.length).length < (natToDec s.length ++ 'H' :: s).length := by
    simp
  rw [if_neg (Nat.ne_of_lt hlen), pyInt_natToDec]
  have hdrop : (natToDec s.length ++ 'H' :: s).drop ((natToDec s.length).length + 1)
      = s := by
    rw [List.drop_append_eq_append_drop]
    simp
  rw [Option.map_some', hdrop]
  simp

/-! ### Lemmas about the status-number helpers -/

theorem splitSpace_no_space (A : List Char) (h : ∀ c ∈ A, c ≠ ' ') :
    splitSpace A = [A] := by
  induction A with
  | nil => rfl
  | cons c t ih =>
    have hc : ¬ (c = ' ') := h c (List.mem_cons_self c t)
    rw [splitSpace, if_neg hc, ih (fun b hb => h b (List.mem_cons_of_mem c hb))]

theorem splitSpace_append (A B : List Char) (h : ∀ c ∈ A, c ≠ ' ') :
    splitSpace (A ++ ' ' :: B) = A :: splitSpace B := by
  induction A with
  | nil => simp [splitSpace]
  | cons c t ih =>
    have hc : ¬ (c = ' ') := h c (List.mem_cons_self c t)
    rw [List.cons_append, splitSpace, if_neg hc,
      ih (fun b hb => h b (List.mem_cons_of_mem c hb))]

theorem zfill_of_le (s : List Char) (width : Nat) (h : width ≤ s.length) :
    zfill s width = s := by
  rw [zfill.eq_def, if_pos h]

theorem zfill_two_digits (s : List Char) (hne : s ≠ [])
    (hd : ∀ c ∈ s, c.isDigit = true) :
    zfill s 2 = List.replicate (2 - s.length) '0' ++ s := by
  rw [zfill.eq_def]
  by_cases h : 2 ≤ s.length
  · rw [if_pos h]
    have h0 : 2 - s.length = 0 := by omega
    rw [h0, List.replicate_zero, List.nil_append]
  · rw [if_neg h]
    cases s with
    | nil => exact absurd rfl hne
    | cons c rest =>
      have hcd : c.isDigit = true := hd c (List.mem_cons_self c rest)
      have : ¬ (c = '-' ∨ c = '+') := by
        rintro (rfl | rfl)
        · exact absurd hcd (by decide)
        · exact absurd hcd (by decide)
      change (if c = '-' ∨ c = '+' then
          c :: (List.replicate (2 - (c :: rest).length) '0' ++ rest)
        else List.replicate (2 - (c :: rest).length) '0' ++ (c :: rest)) = _
      rw [if_neg this]

/-- The two-digit formatted component: padding plus decimal digits. -/
theorem fmt02_eq (n : Nat) :
    zfill (natToDec n) 2
      = List.replicate (2 - (natToDec n).length) '0' ++ natToDec n :=
  zfill_two_digits _ (natToDec_ne_nil n)
    (fun c hc => by
      obtain ⟨d, hd, rfl⟩ := natToDec_mem_digit n hc
      exact digitChar_isDigit hd)

theorem natToDec_len_le_two {n : Nat} (h : n < 100) :
    (natToDec n).length ≤ 2 := by
  rw [natToDec]
  by_cases h0 : n = 0
  · rw [if_pos h0]; decide
  · rw [if_neg h0]
    simp only [List.length_map, List.length_reverse]
    rw [Nat.digits_len 10 n (by norm_num) h0]
    have : Nat.log 10 n < 2 := Nat.log_lt_of_lt_pow h0 (by omega)
    omega

theorem fmt02_len {n : Nat} (h : n < 100) :
    (zfill (natToDec n) 2).length = 2 := by
  rw [fmt02_eq]
  have h1 : 1 ≤ (natToDec n).length := by
    cases hd : natToDec n with
    | nil => exact absurd hd (natToDec_ne_nil n)
    | cons c t => simp
  have h2 := natToDec_len_le_two h
  simp only [List.length_append, List.length_replicate]
  omega

theorem fmt02_mem_digit (n : Nat) {c : Char} (hc : c ∈ zfill (natToDec n) 2) :
    c.isDigit = true := by
  rw [fmt02_eq] at hc
  rcases List.mem_append.1 hc with h | h
  · rw [List.eq_of_mem_replicate h]; decide
  · obtain ⟨d, hd, rfl⟩ := natToDec_mem_digit n h
    exact digitChar_isDigit hd

theorem digitsVal_foldl_acc (B : List Char) (a : Nat) :
    B.foldl (fun a c => a * 10 + (c.toNat - 48)) a
      = a * 10 ^ B.length + digitsVal B := by
  induction B generalizing a with
  | nil => simp [digitsVal]
  | cons c t ih =>
    have hv : digitsVal (c :: t)
        = (c.toNat - 48) * 10 ^ t.length + digitsVal t := by
      show t.foldl (fun a c => a * 10 + (c.toNat - 48)) (0 * 10 + (c.toNat - 48))
          = _
      rw [ih]
      ring_nf
    rw [List.foldl_cons, ih (a * 10 + (c.toNat - 48)), hv, List.length_cons]
    ring

theorem digitsVal_append (A B : List Char) :
    digitsVal (A ++ B) = digitsVal A * 10 ^ B.length + digitsVal B := by
  unfold digitsVal
  rw [List.foldl_append]
  exact digitsVal_foldl_acc B _

theorem digitsVal_replicate_zero (k : Nat) :
    digitsVal (List.replicate k '0') = 0 := by
  induction k with
  | zero => rfl
  | succ m ih =>
    rw [List.replicate_succ]
    unfold digitsVal at ih ⊢
    rw [List.foldl_cons]
    simpa using ih

theorem digitsVal_fmt02 {n : Nat} (_ : n < 100) :
    digitsVal (zfill (natToDec n) 2) = n := by
  rw [fmt02_eq, digitsVal_append, digitsVal_replicate_zero, digitsVal_natToDec]
  ring

theorem pyInt_all_digits (s : List Char) (hne : s ≠ [])
    (hd : ∀ c ∈ s, c.isDigit = true) : pyInt s = some (digitsVal s) := by
  unfold pyInt
  rw [pyStrip_of_no_space s (fun c hc => isDigit_ne_space (hd c hc)),
    if_neg (head_ne_minus_of_digits s hd), parseDigits,
    if_pos ⟨hne, List.all_eq_true.2 (fun c hc => hd c hc)⟩]
  rfl

/-! ### C2: status-number round trip -/

/-- **C2** Decoding the status-number string `"%02d %02d %02d %02d" % (w,x,y,z)`
for two-digit values yields `w*1000000 + x*10000 + y*100 + z`; a blank
component is treated as zero (illustrated on `"00 02  01"`, whose blank third
component decodes as `00`). -/
theorem status_number_round_trip (w x y z : Nat)
    (hw : w < 100) (hx : x < 100) (hy : y < 100) (hz : z < 100) :
    parseStatusNumber (fmtStatus w x y z)
      = some ((w : ℤ) * 1000000 + x * 10000 + y * 100 + z)
    ∧ parseStatusNumber (String.toList "00 02  01") = some 20001 := by
  constructor
  · unfold parseStatusNumber fmtStatus
    have hdig : ∀ n : Nat, ∀ c ∈ zfill (natToDec n) 2, c ≠ ' ' :=
      fun n c hc => isDigit_ne_space (fmt02_mem_digit n hc)
    rw [splitSpace_append _ _ (hdig w), splitSpace_append _ _ (hdig x),
      splitSpace_append _ _ (hdig y), splitSpace_no_space _ (hdig z)]
    have hz2 : ∀ n : Nat, n < 100 → zfill (zfill (natToDec n) 2) 2
        = zfill (natToDec n) 2 :=
      fun n hn => zfill_of_le _ 2 (by rw [fmt02_len hn])
    simp only [List.map_cons, List.map_nil, List.flatten_cons, List.flatten_nil,
      hz2 w hw, hz2 x hx, hz2 y hy, hz2 z hz, List.append_nil]
    rw [pyInt_all_digits _ ?_ ?_]
    · have hlen : ∀ n : Nat, n < 100 → (zfill (natToDec n) 2).length = 2 :=
        fun n hn => fmt02_len hn
      rw [digitsVal_append, digitsVal_append, digitsVal_append,
        digitsVal_fmt02 hw, digitsVal_fmt02 hx, digitsVal_fmt02 hy,
        digitsVal_fmt02 hz]
      simp only [List.length_append, hlen x hx, hlen y hy, hlen z hz]
      norm_num
      ring
    · intro hcontra
      have := congrArg List.length hcontra
      simp only [List.length_append, List.length_nil, fmt02_len hw,
        fmt02_len hx, fmt02_len hy, fmt02_len hz] at this
      omega
    · intro c hc
      rcases List.mem_append.1 hc with h | h
      · exact fmt02_mem_digit w h
      rcases List.mem_append.1 h with h | h
      · exact fmt02_mem_digit x h
      rcases List.mem_append.1 h with h | h
      · exact fmt02_mem_digit y h
      · exact fmt02_mem_digit z h
  · decide

/-- Witness for C2 at `(w,x,y,z) = (12,3,45,0)`. -/
theorem status_number_round_trip_witness :
    parseStatusNumber (fmtStatus 12 3 45 0)
      = some ((12 : ℤ) * 1000000 + 3 * 10000 + 45 * 100 + 0)
    ∧ parseStatusNumber (String.toList "00 02  01") = some 20001 :=
  status_number_round_trip 12 3 45 0 (by decide) (by decide) (by decide)
    (by decide)

/-! ### C4: over-long Hollerith declaration does not raise -/

/-- **C4 counterexample** `read_hollerith` on `"5Hab"` (declared length 5,
only 2 characters available, no further lines) returns the truncated string
`"ab"` instead of raising: no `InvalidGlobalDataError` exists anywhere in the
code. -/
theorem hollerith_truncated_no_error :
    read_hollerith (String.toList "5Hab") = some (String.toList "ab") := by
  decide

/-- **C4 (amended)** When the declared string length runs past the buffered
content, `GlobalSectionReader.parse_string` returns normally: the unit buffer
is unchanged and the partial token `content[i:data_end]` is retained as
left-over carry state; nothing is raised. -/
theorem parse_string_overrun_keeps_leftover (i ln : Nat) (content : List Char)
    (st : GlobalReaderState) (string_length : ℤ)
    (hparse : pyInt ((content.drop i).take ln) = some string_length)
    (hover : (content.length : ℤ) < (i : ℤ) + ln + string_length + 1) :
    parse_string i ln content st
      = some (content.length,
          { st with left_over :=
              (content.drop i).take (((i : ℤ) + ln + string_length + 1) - i).toNat }) := by
  unfold parse_string
  rw [hparse]
  simp only [if_pos hover]

/-- Witness for C4's amended theorem on the truncated record `"5Hab"`. -/
theorem parse_string_overrun_witness :
    parse_string 0 1 (String.toList "5Hab") ⟨[], []⟩
      = some (4, ⟨[], String.toList "5Hab"⟩) := by
  rw [parse_string_overrun_keeps_leftover 0 1 (String.toList "5Hab") ⟨[], []⟩ 5
    (by decide) (by decide)]
  decide

/-! ### C9: defaults are unreachable on an empty global data list -/

/-- **C9** On an empty `global_data_list` both properties raise `IndexError`
(`none`) instead of returning the documented defaults; the default branch is
reached only when a first (resp. second) element exists but is falsy. -/
theorem delimiter_empty_raises :
    delimiter [] = none ∧ ending [] = none
    ∧ delimiter [PyVal.str []] = some DEFAULT_DELIMITER
    ∧ ending [PyVal.num 1, PyVal.str []] = some DEFAULT_ENDING := by
  decide

/-- **C8 counterexample** The tokenizer accepts a line whose section code is
`'X'` (not one of `S,G,D,P,T`) and returns it unchanged — it does not fail,
contradicting the claim that an unrecognized section code raises
`MalformedLineError` (a class that does not exist in the code). -/
theorem parse_line_unchecked_section :
    parse_line badSectionLine = some ⟨List.replicate 72 'a', 'X', 1⟩
    ∧ 'X' ∉ ['S', 'G', 'D', 'P', 'T'] := by
  decide

/-- **C8 (amended)** A physical line shorter than 73 columns makes the
tokenizer fail — with an uncaught `IndexError` from `line[72]`, not with a
`MalformedLineError`; and the section code is never validated (see the
counterexample). -/
theorem parse_line_short_fails (line : List Char) (h : line.length < 73) :
    parse_line line = none := by
  unfold parse_line
  have h72 : line.get? 72 = none := by
    rw [List.get?_eq_none]
    omega
  rw [h72]

/-- Witness for C8's amended theorem on a 5-character line. -/
theorem parse_line_short_witness :
    (String.toList "short").length < 73
    ∧ parse_line (String.toList "short") = none :=
  ⟨by decide, parse_line_short_fails (String.toList "short") (by decide)⟩

/-! ### C1: registry key arithmetic -/

/-- **C1** Processing the directory unit of physical sequence number
`3 = 2·1+1` (so `k = 1`) inserts its entity at registry key
`sequence − 1 = 2`, not at `(sequence − 1)/2 = 1`: looking up pointer 1
afterwards finds nothing, while pointer 2 does.  This contradicts the claimed
key arithmetic (and the `-1 … /2` comment in `parameter_section_reader.py`). -/
theorem de_pointer_key_eval :
    (deProcessUnit lineTypeBuf 3 []).bind (fun reg => getEntity reg 1) = none
    ∧ ((deProcessUnit lineTypeBuf 3 []).bind
        (fun reg => getEntity reg 2)).isSome = true := by
  decide

/-! ### C7: unsupported type numbers are skipped silently -/

/-- **C7** A directory unit whose decoded type number is not a key of
`etype2class` inserts nothing: the `KeyError` is caught, the registry is
returned unchanged (existing entries intact), and processing continues. -/
theorem unsupported_type_skipped (buffer : List (List Char)) (sequence : ℤ)
    (reg : Registry) (t : ℤ) (ps : List DirParam)
    (h1 : buildEntityParams buffer = some (DirParam.int t :: ps))
    (h2 : t ∉ supportedTypes) :
    deProcessUnit buffer sequence reg = some reg := by
  unfold deProcessUnit
  rw [h1]
  simp only [if_neg h2]

/-- Witness for C7: type 999 on a non-empty registry, which survives
unchanged. -/
theorem unsupported_type_skipped_witness :
    buildEntityParams unsupportedTypeBuf
        = some (DirParam.int 999 :: unsupportedTail)
    ∧ (999 : ℤ) ∉ supportedTypes
    ∧ deProcessUnit unsupportedTypeBuf 5 [(0, priorEntity)]
        = some [(0, priorEntity)] :=
  ⟨by decide, by decide,
    unsupported_type_skipped unsupportedTypeBuf 5 [(0, priorEntity)] 999
      unsupportedTail (by decide) (by decide)⟩

theorem exists_cons12 (l : List ℚ) (h : 12 ≤ l.length) :
    ∃ a0 a1 a2 a3 a4 a5 a6 a7 a8 a9 a10 a11 rest,
      l = a0 :: a1 :: a2 :: a3 :: a4 :: a5 :: a6 :: a7 :: a8 :: a9 :: a10 ::
        a11 :: rest := by
  rcases l with _ | ⟨a0, _ | ⟨a1, _ | ⟨a2, _ | ⟨a3, _ | ⟨a4, _ | ⟨a5, _ |
    ⟨a6, _ | ⟨a7, _ | ⟨a8, _ | ⟨a9, _ | ⟨a10, _ | ⟨a11, rest⟩⟩⟩⟩⟩⟩⟩⟩⟩⟩⟩⟩
  all_goals simp only [List.length_cons, List.length_nil] at h
  all_goals first
    | omega
    | exact ⟨a0, a1, a2, a3, a4, a5, a6, a7, a8, a9, a10, a11, rest, rfl⟩

/-! ### C10: surplus arguments are ignored, no arity check -/

/-- **C10** For the fixed-arity entities, `add_parameters` given at least the
type's arity succeeds, uses only the leading positional values (Line: first
three become `start`, next three `end`), and ignores every surplus argument. -/
theorem fixed_arity_ignores_surplus (args extra : List ℚ) :
    (3 ≤ args.length →
      pointAddParameters (args ++ extra) = pointAddParameters args)
    ∧ (6 ≤ args.length →
      lineAddParameters (args ++ extra) = lineAddParameters args
      ∧ lineAddParameters args = ⟨args.take 3, (args.drop 3).take 3⟩)
    ∧ (12 ≤ args.length →
      conicAddParameters (args ++ extra) = conicAddParameters args
      ∧ (conicAddParameters args).isSome = true)
    ∧ (12 ≤ args.length →
      transformationAddParameters (args ++ extra)
          = transformationAddParameters args
      ∧ (transformationAddParameters args).isSome = true) := by
  refine ⟨fun h3 => ?_, fun h6 => ⟨?_, rfl⟩, fun h12 => ?_, fun h12 => ?_⟩
  · unfold pointAddParameters
    rw [List.take_append_eq_append_take]
    have : 3 - args.length = 0 := by omega
    rw [this, List.take_zero, List.append_nil]
  · unfold lineAddParameters
    rw [List.take_append_eq_append_take, List.drop_append_eq_append_drop]
    have h30 : 3 - args.length = 0 := by omega
    have hd0 : 3 - args.length = 0 := h30
    rw [h30, List.take_zero, List.append_nil, List.drop_zero,
      List.take_append_eq_append_take]
    have : 3 - (args.drop 3).length = 0 := by
      rw [List.length_drop]; omega
    rw [this, List.take_zero, List.append_nil]
  · obtain ⟨a0, a1, a2, a3, a4, a5, a6, a7, a8, a9, a10, a11, rest, rfl⟩ :=
      exists_cons12 args h12
    simp [conicAddParameters]
  · obtain ⟨a0, a1, a2, a3, a4, a5, a6, a7, a8, a9, a10, a11, rest, rfl⟩ :=
      exists_cons12 args h12
    simp [transformationAddParameters]

/-- Witness for C10 at concrete argument lists with surplus values. -/
theorem fixed_arity_witness :
    pointAddParameters ([1, 2, 3] ++ [9]) = pointAddParameters [1, 2, 3]
    ∧ (conicAddParameters
          ([1, 2, 3, 4, 5, 6, 7, 8, 9, 10, 11, 12] ++ [99])
        = conicAddParameters [1, 2, 3, 4, 5, 6, 7, 8, 9, 10, 11, 12]
      ∧ (conicAddParameters [1, 2, 3, 4, 5, 6, 7, 8, 9, 10, 11, 12]).isSome
          = true) :=
  ⟨(fixed_arity_ignores_surplus [1, 2, 3] [9]).1 (by decide),
   (fixed_arity_ignores_surplus [1, 2, 3, 4, 5, 6, 7, 8, 9, 10, 11, 12]
     [99]).2.2.1 (by decide)⟩

/-- **C5** On `c5Args` the population succeeds (every assert passes, since
the asserts use the same swapped formulas as the slices) but stores a first
knot vector of length `K2+M1+2 = 3` and a second of length `K1+M2+2 = 4` —
the claim (and the IGES standard) require `K1+M1+2 = 4` and `K2+M2+2 = 3`.
The weight count (2) and the `(K2+1)×(K1+1)` control grid are as claimed. -/
theorem rbss_knot_swap_eval :
    (rbssAddParameters c5Args).map
        (fun r => (r.knot1.length, r.knot2.length, r.weights.length,
          r.control_points))
      = some (3, 4, 2, [[[0, 0, 0], [1, 0, 0]]]) := by
  rfl

/-! ### C6: no degenerate-conic detection -/

/-- **C6 counterexample** For the degenerate conic `x² − y = 0`
(`(a,b,c,d,e,f) = (1,0,0,0,−1,0)`), the second eigenvalue is exactly `0`,
yet the computation performs the division and produces a value instead of
raising `DegenerateConicError` (which does not exist in the code): the
division by zero is Lean's `x / 0 = 0`, numpy's non-raising `inf`. -/
theorem conic_divides_at_degenerate :
    l2 1 0 0 = 0 ∧ get_major_raidus 1 0 0 0 (-1) 0 = 0 := by
  have hdisc : eigvalsDisc 1 0 0 = 1 := by unfold eigvalsDisc; norm_num
  have h2 : l2 1 0 0 = 0 := by
    unfold l2
    rw [hdisc, Real.sqrt_one]
    norm_num
  refine ⟨h2, ?_⟩
  unfold get_major_raidus
  rw [h2, mul_zero, div_zero]

/-- **C6 (amended)** The computation is a single unconditional division:
`l1`/`l2` as computed really are the eigenvalues of `[[a,b/2],[b/2,c]]`
(each is a root of `det([[a,b/2],[b/2,c]] − λI)`), the expanded `S` equals
the determinant of the 3×3 conic matrix, and whenever `λ1²·λ2 ≠ 0` the
returned value satisfies `result · (λ1²·λ2) = −S`; no degenerate-case branch
exists. -/
theorem get_major_raidus_formula (a b c d e f : ℝ)
    (h : (l1 a b c) ^ 2 * l2 a b c ≠ 0) :
    ((a - l1 a b c) * (c - l1 a b c) - (b / 2) * (b / 2) = 0)
    ∧ ((a - l2 a b c) * (c - l2 a b c) - (b / 2) * (b / 2) = 0)
    ∧ conicDet a b c d e f
        = Matrix.det !![a, b / 2, d / 2; b / 2, c, e / 2; d / 2, e / 2, f]
    ∧ get_major_raidus a b c d e f * ((l1 a b c) ^ 2 * l2 a b c)
        = -(conicDet a b c d e f) := by
  have hnn : (0 : ℝ) ≤ eigvalsDisc a b c := by unfold eigvalsDisc; positivity
  have hs : Real.sqrt (eigvalsDisc a b c) ^ 2 = (a - c) ^ 2 + b ^ 2 := by
    rw [Real.sq_sqrt hnn]; unfold eigvalsDisc; ring
  refine ⟨?_, ?_, ?_, ?_⟩
  · unfold l1
    linear_combination (1 / 4 : ℝ) * hs
  · unfold l2
    linear_combination (1 / 4 : ℝ) * hs
  · unfold conicDet
    rw [Matrix.det_fin_three]
    simp [Matrix.cons_val_zero, Matrix.cons_val_one]
    ring
  · unfold get_major_raidus
    exact div_mul_cancel₀ _ h

/-- Witness for C6's amended theorem at the unit circle
(`a=1,b=0,c=1,f=−1`), where both eigenvalues are 1. -/
theorem get_major_raidus_formula_witness :
    (l1 1 0 1) ^ 2 * l2 1 0 1 ≠ 0
    ∧ get_major_raidus 1 0 1 0 0 (-1) * ((l1 1 0 1) ^ 2 * l2 1 0 1)
        = -(conicDet 1 0 1 0 0 (-1)) := by
  have hdisc : eigvalsDisc 1 0 1 = 0 := by unfold eigvalsDisc; norm_num
  have hl1 : l1 1 0 1 = 1 := by
    unfold l1; rw [hdisc, Real.sqrt_zero]; norm_num
  have hl2 : l2 1 0 1 = 1 := by
    unfold l2; rw [hdisc, Real.sqrt_zero]; norm_num
  have hne : (l1 1 0 1) ^ 2 * l2 1 0 1 ≠ 0 := by
    rw [hl1, hl2]; norm_num
  exact ⟨hne, (get_major_raidus_formula 1 0 1 0 0 (-1) hne).2.2.2⟩

end Iges2Vtk
